import Mathlib

/-!
Verification of the FvCB photosynthesis evaluator
(src/backend/fvcb/evaluate.py, function evaluateFvCB).

The numerical code is embedded shallowly over the real numbers: every
arithmetic expression of the Python source is translated literally
(np.exp, np.sqrt, np.log become Real.exp, Real.sqrt, Real.log), and the
per-sample mesophyll-conductance fixed-point loop (a for-loop over
range 40 with an early break) becomes a fuel-based recursion with
fuel 40 whose break returns the loop variable without the final update,
exactly as the Python break does.

Parameter lookup errors (KeyError on a missing dict key) are modelled
separately by a table-based wrapper over String-indexed optional values,
mirroring which lookups the source performs eagerly (theta, alphaG,
before the sample loop) and which happen inside each sample's
computation (all remaining keys, read inside the rate lambdas).
-/

set_option maxHeartbeats 1000000

namespace FvCB

noncomputable section

/-- Gas constant as in line 28 of the source. -/
def R : ℝ := 0.008314

/-- Clamped ratio dHd over dHa, line 33 of the source:
max(dHd / dHa, 1.0001). -/
def dHdRatio (dHd dHa : ℝ) : ℝ := max (dHd / dHa) 1.0001

/-- Temperature response function, lines 31 to 36 of the source:
modified Arrhenius with high-temperature deactivation, normalized at 298 K. -/
def Tresp (T dHa dHd Topt : ℝ) : ℝ :=
  let arrhenius := Real.exp (dHa / R * (1 / 298 - 1 / T))
  let f298 := 1 + Real.exp (dHd / R * (1 / Topt - 1 / 298) -
    Real.log (dHdRatio dHd dHa - 1))
  let fT := 1 + Real.exp (dHd / R * (1 / Topt - 1 / T) -
    Real.log (dHdRatio dHd dHa - 1))
  arrhenius * f298 / fT

/-- Required scalar parameters of evaluateFvCB, in the order read inside
the per-sample computation (lines 39 to 61 of the source).  The optional
mesophyll conductance gm is passed separately, mirroring
p.get('gm', None) on line 81. -/
structure FvCBParams where
  Vcmax25 : ℝ
  Vcmax_dHa : ℝ
  Vcmax_dHd : ℝ
  Vcmax_Topt : ℝ
  Jmax25 : ℝ
  Jmax_dHa : ℝ
  Jmax_dHd : ℝ
  Jmax_Topt : ℝ
  TPU25 : ℝ
  TPU_dHa : ℝ
  TPU_dHd : ℝ
  TPU_Topt : ℝ
  Kc25 : ℝ
  Kc_dHa : ℝ
  Ko25 : ℝ
  Ko_dHa : ℝ
  GammaS25 : ℝ
  GammaS_dHa : ℝ
  Rd25 : ℝ
  Rd_dHa : ℝ
  O : ℝ
  alpha : ℝ
  theta : ℝ
  alphaG : ℝ

/-- Line 39 of the source. -/
def Vcmax (p : FvCBParams) (T : ℝ) : ℝ :=
  p.Vcmax25 * Tresp T p.Vcmax_dHa p.Vcmax_dHd p.Vcmax_Topt

/-- Line 40 of the source. -/
def Jmax (p : FvCBParams) (T : ℝ) : ℝ :=
  p.Jmax25 * Tresp T p.Jmax_dHa p.Jmax_dHd p.Jmax_Topt

/-- Line 41 of the source. -/
def TPU (p : FvCBParams) (T : ℝ) : ℝ :=
  p.TPU25 * Tresp T p.TPU_dHa p.TPU_dHd p.TPU_Topt

/-- Line 42 of the source: fixed deactivation defaults dHd = 500, Topt = 1000. -/
def Kc (p : FvCBParams) (T : ℝ) : ℝ := p.Kc25 * Tresp T p.Kc_dHa 500 1000

/-- Line 43 of the source. -/
def Ko (p : FvCBParams) (T : ℝ) : ℝ := p.Ko25 * Tresp T p.Ko_dHa 500 1000

/-- Line 44 of the source. -/
def Gamma (p : FvCBParams) (T : ℝ) : ℝ :=
  p.GammaS25 * Tresp T p.GammaS_dHa 500 1000

/-- Line 45 of the source. -/
def Rd (p : FvCBParams) (T : ℝ) : ℝ := p.Rd25 * Tresp T p.Rd_dHa 500 1000

/-- Line 46 of the source. -/
def Kco (p : FvCBParams) (T : ℝ) : ℝ := Kc p T * (1 + p.O / Ko p T)

/-- Clamped curvature parameter, line 49 of the source:
a = max(p['theta'], 0.0001). -/
def aClamp (theta : ℝ) : ℝ := max theta 0.0001

/-- Light response function J, line 51 of the source, with the double
negations of the Python expression kept and ia = 1 / a. -/
def J (p : FvCBParams) (Q T : ℝ) : ℝ :=
  (-(-(p.alpha * Q + Jmax p T)) -
    Real.sqrt ((-(p.alpha * Q + Jmax p T)) ^ 2 -
      4 * aClamp p.theta * (p.alpha * Q * Jmax p T))) * 0.5 * (1 / aClamp p.theta)

/-- RuBisCO-limited rate, line 54 of the source. -/
def vr (p : FvCBParams) (Cc T : ℝ) : ℝ :=
  Vcmax p T * ((Cc - Gamma p T) / (Cc + Kco p T)) - Rd p T

/-- Electron-transport-limited rate, line 57 of the source. -/
def jr (p : FvCBParams) (Cc Q T : ℝ) : ℝ :=
  0.25 * J p Q T * ((Cc - Gamma p T) / (Cc + 2 * Gamma p T)) - Rd p T

/-- TPU-limited rate, line 61 of the source. -/
def tpu (p : FvCBParams) (Cc T : ℝ) : ℝ :=
  3 * TPU p T * ((Cc - Gamma p T) / (Cc - (1 + 3 * p.alphaG) * Gamma p T))

/-- Smooth hyperbolic minimum, line 64 of the source. -/
def hmin (f1 f2 : ℝ) : ℝ :=
  (f1 + f2 - Real.sqrt ((f1 + f2) ^ 2 - 4 * 0.999 * f1 * f2)) / (2 * 0.999)

/-- Net assimilation at chloroplast CO2 Cc, lines 67 and 78 of the source. -/
def A (p : FvCBParams) (Cc Q T : ℝ) : ℝ :=
  hmin (tpu p Cc T) (hmin (vr p Cc T) (jr p Cc Q T))

/-- One iteration of the fixed-point update, line 104 of the source:
Cc_new = Ci - A(Cc) / gm. -/
def ccStep (p : FvCBParams) (g Ci Q T cc : ℝ) : ℝ := Ci - A p cc Q T / g

/-- The fixed-point loop of lines 102 to 107, as a fuel recursion.
Each fuel step runs one loop body: compute Cc_new, break returning the
un-updated Cc when abs(Cc_new - Cc) < 1e-6, otherwise continue with
Cc = Cc_new.  Exhausted fuel (the range-40 cap) returns the current Cc. -/
def loopGo (p : FvCBParams) (g Ci Q T : ℝ) : ℕ → ℝ → ℝ
  | 0, cc => cc
  | n + 1, cc =>
      if |ccStep p g Ci Q T cc - cc| < 1e-6 then cc
      else loopGo p g Ci Q T n (ccStep p g Ci Q T cc)

/-- Number of loop-body executions performed by loopGo with the given fuel. -/
def loopCount (p : FvCBParams) (g Ci Q T : ℝ) : ℕ → ℝ → ℕ
  | 0, _ => 0
  | n + 1, cc =>
      if |ccStep p g Ci Q T cc - cc| < 1e-6 then 1
      else 1 + loopCount p g Ci Q T n (ccStep p g Ci Q T cc)

/-- Whether the loop of lines 102 to 107 exits through the convergence
break (rather than by exhausting the iteration cap). -/
def converged (p : FvCBParams) (g Ci Q T : ℝ) : ℕ → ℝ → Bool
  | 0, _ => false
  | n + 1, cc =>
      if |ccStep p g Ci Q T cc - cc| < 1e-6 then true
      else converged p g Ci Q T n (ccStep p g Ci Q T cc)

/-- Per-sample evaluation, lines 90 to 109 of the source: the disabled
path when gm is absent or nonpositive, otherwise the fixed-point loop
started at Ci - 20/0.2 with fuel 40, followed by one more evaluation of
A at the final loop variable. -/
def evaluateSample (p : FvCBParams) (gm : Option ℝ) : ℝ × ℝ × ℝ → ℝ
  | (Ci, Q, T) =>
    match gm with
    | none => A p Ci Q T
    | some g =>
        if g ≤ 0 then A p Ci Q T
        else A p (loopGo p g Ci Q T 40 (Ci - 20 / 0.2)) Q T

/-- Batch evaluation, the for-loop of lines 90 to 111: one output per
sample, written in input order. -/
def evaluateFvCB (p : FvCBParams) (gm : Option ℝ) : List (ℝ × ℝ × ℝ) → List ℝ
  | [] => []
  | s :: rest => evaluateSample p gm s :: evaluateFvCB p gm rest

/-! ### Basic facts about the smooth minimum -/

lemma hmin_le_left (f1 f2 : ℝ) : hmin f1 f2 ≤ f1 := by
  have key : f2 - 0.998 * f1 ≤ Real.sqrt ((f1 + f2) ^ 2 - 4 * 0.999 * f1 * f2) :=
    calc f2 - 0.998 * f1 ≤ |f2 - 0.998 * f1| := le_abs_self _
      _ = Real.sqrt ((f2 - 0.998 * f1) ^ 2) := (Real.sqrt_sq_eq_abs _).symm
      _ ≤ Real.sqrt ((f1 + f2) ^ 2 - 4 * 0.999 * f1 * f2) :=
          Real.sqrt_le_sqrt (by nlinarith [sq_nonneg f1])
  rw [hmin, div_le_iff (by norm_num : (0:ℝ) < 2 * 0.999)]
  linarith

lemma hmin_le_right (f1 f2 : ℝ) : hmin f1 f2 ≤ f2 := by
  have key : f1 - 0.998 * f2 ≤ Real.sqrt ((f1 + f2) ^ 2 - 4 * 0.999 * f1 * f2) :=
    calc f1 - 0.998 * f2 ≤ |f1 - 0.998 * f2| := le_abs_self _
      _ = Real.sqrt ((f1 - 0.998 * f2) ^ 2) := (Real.sqrt_sq_eq_abs _).symm
      _ ≤ Real.sqrt ((f1 + f2) ^ 2 - 4 * 0.999 * f1 * f2) :=
          Real.sqrt_le_sqrt (by nlinarith [sq_nonneg f2])
  rw [hmin, div_le_iff (by norm_num : (0:ℝ) < 2 * 0.999)]
  linarith

lemma hmin_comm (f1 f2 : ℝ) : hmin f1 f2 = hmin f2 f1 := by
  have h : (f1 + f2) ^ 2 - 4 * 0.999 * f1 * f2
      = (f2 + f1) ^ 2 - 4 * 0.999 * f2 * f1 := by ring
  rw [hmin, hmin, h, add_comm f1 f2]

lemma hmin_pos {f1 f2 : ℝ} (h1 : 0 < f1) (h2 : 0 < f2) : 0 < hmin f1 f2 := by
  have hD0 : 0 ≤ (f1 + f2) ^ 2 - 4 * 0.999 * f1 * f2 := by
    nlinarith [sq_nonneg (f1 - f2)]
  have hlt : Real.sqrt ((f1 + f2) ^ 2 - 4 * 0.999 * f1 * f2) < f1 + f2 :=
    calc Real.sqrt ((f1 + f2) ^ 2 - 4 * 0.999 * f1 * f2)
        < Real.sqrt ((f1 + f2) ^ 2) := Real.sqrt_lt_sqrt hD0 (by nlinarith)
      _ = f1 + f2 := Real.sqrt_sq (by linarith)
  rw [hmin]
  apply div_pos (by linarith) (by norm_num)

lemma em3_lt_sqrt_em3 : (0.001 : ℝ) < Real.sqrt 0.001 :=
  (Real.lt_sqrt (by norm_num)).mpr (by norm_num)

lemma sqrt_em3_lt_one : Real.sqrt 0.001 < 1 :=
  (Real.sqrt_lt' one_pos).mpr (by norm_num)

lemma hmin_self {x : ℝ} (hx : 0 < x) :
    hmin x x = x * (1 - Real.sqrt 0.001) / 0.999 := by
  have h1 : (x + x) ^ 2 - 4 * 0.999 * x * x = 0.001 * (2 * x) ^ 2 := by ring
  rw [hmin, h1, Real.sqrt_mul (by norm_num : (0:ℝ) ≤ 0.001),
    Real.sqrt_sq (by linarith : (0:ℝ) ≤ 2 * x)]
  field_simp
  ring

lemma hmin_le_of_le {c z : ℝ} (hc : 0 < c) (hz : 0 < z) (hzc : z ≤ c) :
    hmin c z ≤ c * (1 - Real.sqrt 0.001) / 0.999 := by
  have hs2 : Real.sqrt 0.001 ^ 2 = 0.001 := Real.sq_sqrt (by norm_num)
  have hsgt : (0.001 : ℝ) < Real.sqrt 0.001 := em3_lt_sqrt_em3
  have hprod : 0 ≤ c * ((c - z) * (Real.sqrt 0.001 - 0.001)) :=
    mul_nonneg hc.le (mul_nonneg (by linarith) (by linarith))
  have key : z - c + 2 * c * Real.sqrt 0.001 ≤
      Real.sqrt ((c + z) ^ 2 - 4 * 0.999 * c * z) :=
    calc z - c + 2 * c * Real.sqrt 0.001
        ≤ |z - c + 2 * c * Real.sqrt 0.001| := le_abs_self _
      _ = Real.sqrt ((z - c + 2 * c * Real.sqrt 0.001) ^ 2) :=
          (Real.sqrt_sq_eq_abs _).symm
      _ ≤ Real.sqrt ((c + z) ^ 2 - 4 * 0.999 * c * z) := by
          apply Real.sqrt_le_sqrt
          have hcs : c ^ 2 * Real.sqrt 0.001 ^ 2 = 0.001 * c ^ 2 := by
            rw [hs2]; ring
          nlinarith [hprod, hcs]
  rw [hmin, div_le_div_iff (by norm_num) (by norm_num)]
  linarith

/-! ### Temperature response at the 298 K reference -/

lemma Tresp_at_298 (dHa dHd Topt : ℝ) : Tresp 298 dHa dHd Topt = 1 := by
  simp only [Tresp]
  have h0 : dHa / R * (1 / 298 - 1 / (298:ℝ)) = 0 := by ring
  have hne : (1 : ℝ) + Real.exp (dHd / R * (1 / Topt - 1 / 298) -
      Real.log (dHdRatio dHd dHa - 1)) ≠ 0 := by positivity
  rw [h0, Real.exp_zero, one_mul, div_self hne]

/-! ### Claim theorems -/

/-- C2: for all finite f1 > 0 and f2 > 0, the smooth-minimum combiner
satisfies hmin(f1, f2) ≤ min(f1, f2), and hmin is symmetric:
hmin(f1, f2) = hmin(f2, f1). -/
theorem hmin_le_min_and_comm (f1 f2 : ℝ) (h1 : 0 < f1) (h2 : 0 < f2) :
    hmin f1 f2 ≤ min f1 f2 ∧ hmin f1 f2 = hmin f2 f1 :=
  ⟨le_min (hmin_le_left f1 f2) (hmin_le_right f1 f2), hmin_comm f1 f2⟩

theorem hmin_le_min_and_comm_witness :
    (0:ℝ) < 1 ∧ (0:ℝ) < 2 ∧ (hmin 1 2 ≤ min 1 2 ∧ hmin 1 2 = hmin 2 1) :=
  ⟨by norm_num, by norm_num, hmin_le_min_and_comm 1 2 (by norm_num) (by norm_num)⟩

/-- C3: for every dHa ≠ 0, arbitrary dHd and Topt > 0, the temperature
response satisfies Tresp(298, dHa, dHd, Topt) = 1 exactly, independent
of dHd and Topt. -/
theorem Tresp_reference_point (dHa dHd Topt : ℝ) (hdHa : dHa ≠ 0)
    (hTopt : 0 < Topt) : Tresp 298 dHa dHd Topt = 1 :=
  Tresp_at_298 dHa dHd Topt

theorem Tresp_reference_point_witness :
    (65:ℝ) ≠ 0 ∧ (0:ℝ) < 311 ∧ Tresp 298 65 200 311 = 1 :=
  ⟨by norm_num, by norm_num,
    Tresp_reference_point 65 200 311 (by norm_num) (by norm_num)⟩

/-! ### Fixed-point loop lemmas -/

lemma loopCount_le (p : FvCBParams) (g Ci Q T : ℝ) :
    ∀ (fuel : ℕ) (cc : ℝ), loopCount p g Ci Q T fuel cc ≤ fuel := by
  intro fuel
  induction fuel with
  | zero => intro cc; simp [loopCount]
  | succ n ih =>
      intro cc
      rw [loopCount]
      split
      · omega
      · have := ih (ccStep p g Ci Q T cc)
        omega

lemma loopGo_converged_test (p : FvCBParams) (g Ci Q T : ℝ) :
    ∀ (fuel : ℕ) (cc : ℝ), converged p g Ci Q T fuel cc = true →
      |ccStep p g Ci Q T (loopGo p g Ci Q T fuel cc) -
        loopGo p g Ci Q T fuel cc| < 1e-6 := by
  intro fuel
  induction fuel with
  | zero => intro cc h; simp [converged] at h
  | succ n ih =>
      intro cc h
      rw [converged] at h
      rw [loopGo]
      by_cases hc : |ccStep p g Ci Q T cc - cc| < 1e-6
      · rw [if_pos hc]
        exact hc
      · rw [if_neg hc] at h
        rw [if_neg hc]
        exact ih _ h

lemma balance_of_test (p : FvCBParams) {g : ℝ} (Ci Q T cc : ℝ) (hg : 0 < g)
    (h : |ccStep p g Ci Q T cc - cc| < 1e-6) :
    |A p cc Q T - g * (Ci - cc)| ≤ g * 1e-6 := by
  have hgne : g ≠ 0 := hg.ne'
  have hA : A p cc Q T = g * (Ci - ccStep p g Ci Q T cc) := by
    rw [ccStep]
    field_simp
  rw [hA]
  have hre : g * (Ci - ccStep p g Ci Q T cc) - g * (Ci - cc)
      = g * (cc - ccStep p g Ci Q T cc) := by ring
  rw [hre, abs_mul, abs_of_pos hg, abs_sub_comm]
  exact mul_le_mul_of_nonneg_left h.le hg.le

lemma evaluateSample_pos_gm (p : FvCBParams) {g : ℝ} (Ci Q T : ℝ) (hg : 0 < g) :
    evaluateSample p (some g) (Ci, Q, T) =
      A p (loopGo p g Ci Q T 40 (Ci - 20 / 0.2)) Q T := by
  simp only [evaluateSample]
  rw [if_neg (not_le.mpr hg)]

/-- Concrete parameter set whose rate constants are all zero, so the net
assimilation A is identically zero; used to exercise the fixed-point loop
on a instance whose iterates are exactly computable. -/
def pZero : FvCBParams :=
  ⟨0, 1, 500, 1000, 0, 1, 500, 1000, 0, 1, 500, 1000,
   0, 1, 1, 1, 0, 1, 0, 1, 0, 0, 1, 0⟩

/-- C4: when gm is absent, zero or negative, evaluation returns exactly
A(Ci, Q, T) with no fixed-point iteration, and the disabled variants are
identical to each other. -/
theorem gm_disabled (p : FvCBParams) (g Ci Q T : ℝ) (hg : g ≤ 0) :
    evaluateSample p none (Ci, Q, T) = A p Ci Q T ∧
    evaluateSample p (some g) (Ci, Q, T) = A p Ci Q T ∧
    evaluateSample p (some g) (Ci, Q, T) = evaluateSample p none (Ci, Q, T) := by
  have h2 : evaluateSample p (some g) (Ci, Q, T) = A p Ci Q T := by
    simp only [evaluateSample]
    rw [if_pos hg]
  exact ⟨rfl, h2, h2⟩

theorem gm_disabled_witness :
    ((-1:ℝ) ≤ 0 ∧
      evaluateSample pZero none (300, 1000, 298) = A pZero 300 1000 298 ∧
      evaluateSample pZero (some (-1)) (300, 1000, 298) = A pZero 300 1000 298 ∧
      evaluateSample pZero (some (-1)) (300, 1000, 298) =
        evaluateSample pZero none (300, 1000, 298)) ∧
    evaluateSample pZero (some 0) (300, 1000, 298) =
      evaluateSample pZero none (300, 1000, 298) := by
  have h1 := gm_disabled pZero (-1) 300 1000 298 (by norm_num)
  have h0 := gm_disabled pZero 0 300 1000 298 (by norm_num)
  exact ⟨⟨by norm_num, h1.1, h1.2.1, h1.2.2⟩, h0.2.2⟩

/-- C5: with gm > 0 the loop executes its body at most 40 times, always
terminates, and the sample result is A evaluated at the loop's final Cc
(whether the exit was by convergence or by the cap), with no failure
signalled. -/
theorem loop_cap (p : FvCBParams) (g Ci Q T : ℝ) (hg : 0 < g) :
    loopCount p g Ci Q T 40 (Ci - 20 / 0.2) ≤ 40 ∧
    evaluateSample p (some g) (Ci, Q, T) =
      A p (loopGo p g Ci Q T 40 (Ci - 20 / 0.2)) Q T :=
  ⟨loopCount_le p g Ci Q T 40 _, evaluateSample_pos_gm p Ci Q T hg⟩

theorem loop_cap_witness :
    loopCount pZero 1 300 1000 298 40 (300 - 20 / 0.2) ≤ 40 ∧
    evaluateSample pZero (some 1) (300, 1000, 298) =
      A pZero (loopGo pZero 1 300 1000 298 40 (300 - 20 / 0.2)) 1000 298 :=
  loop_cap pZero 1 300 1000 298 (by norm_num)

/-- C9: the clamps in the light-response curvature and in the
temperature-response deactivation ratio keep the effective divisor at
least 0.0002 and the logarithm argument at least 0.0001, for every theta
(including theta ≤ 0) and every dHd, dHa with dHa ≠ 0 (including
dHd / dHa ≤ 1), so neither a zero division nor a log of a nonpositive
number can arise from these quantities. -/
theorem clamp_guards (theta dHd dHa : ℝ) (hdHa : dHa ≠ 0) :
    0.0002 ≤ 2 * aClamp theta ∧ 0 < aClamp theta ∧
    0.0001 ≤ dHdRatio dHd dHa - 1 ∧ 0 < dHdRatio dHd dHa - 1 := by
  have ha : (0.0001 : ℝ) ≤ aClamp theta := le_max_right _ _
  have hr : (1.0001 : ℝ) ≤ dHdRatio dHd dHa := le_max_right _ _
  exact ⟨by linarith, by linarith, by linarith, by linarith⟩

theorem clamp_guards_witness :
    (500:ℝ) ≠ 0 ∧
    (0.0002 ≤ 2 * aClamp (-5) ∧ 0 < aClamp (-5) ∧
      0.0001 ≤ dHdRatio 250 500 - 1 ∧ 0 < dHdRatio 250 500 - 1) :=
  ⟨by norm_num, clamp_guards (-5) 250 500 (by norm_num)⟩

/-! ### Batch structure -/

lemma evaluateFvCB_eq_map (p : FvCBParams) (gm : Option ℝ) :
    ∀ xs : List (ℝ × ℝ × ℝ),
      evaluateFvCB p gm xs = xs.map (evaluateSample p gm) := by
  intro xs
  induction xs with
  | nil => rfl
  | cons s rest ih => simp [evaluateFvCB, ih]

/-- C8: the batch result has one output per sample in input order, each
output depends only on its own sample (and the parameters), and
permuting the samples permutes the outputs identically; the batch always
completes regardless of any one sample's value. -/
theorem batch_pointwise (p : FvCBParams) (gm : Option ℝ)
    (xs : List (ℝ × ℝ × ℝ)) :
    (evaluateFvCB p gm xs).length = xs.length ∧
    (∀ (i : ℕ) (h : i < xs.length) (h2 : i < (evaluateFvCB p gm xs).length),
      (evaluateFvCB p gm xs).get ⟨i, h2⟩ = evaluateSample p gm (xs.get ⟨i, h⟩)) ∧
    (∀ ys : List (ℝ × ℝ × ℝ), xs.Perm ys →
      (evaluateFvCB p gm xs).Perm (evaluateFvCB p gm ys)) := by
  refine ⟨?_, ?_, ?_⟩
  · rw [evaluateFvCB_eq_map]
    exact List.length_map xs _
  · intro i h h2
    simp only [List.get_eq_getElem, evaluateFvCB_eq_map, List.getElem_map]
  · intro ys hperm
    rw [evaluateFvCB_eq_map, evaluateFvCB_eq_map]
    exact hperm.map _

theorem batch_pointwise_witness :
    (evaluateFvCB pZero none [((300:ℝ), (1000:ℝ), (298:ℝ))]).length = 1 ∧
    (evaluateFvCB pZero none [((300:ℝ), (1000:ℝ), (298:ℝ))]).Perm
      (evaluateFvCB pZero none [((300:ℝ), (1000:ℝ), (298:ℝ))]) := by
  have h := batch_pointwise pZero none [((300:ℝ), (1000:ℝ), (298:ℝ))]
  exact ⟨h.1.trans rfl, h.2.2 _ (List.Perm.refl _)⟩

/-! ### Computation on the all-zero parameter set -/

lemma hmin_zero_zero : hmin 0 0 = 0 := by
  rw [hmin]
  norm_num [Real.sqrt_zero]

lemma A_pZero (cc Q T : ℝ) : A pZero cc Q T = 0 := by
  have hv : vr pZero cc T = 0 := by simp [vr, Vcmax, Rd, pZero]
  have hJ : J pZero Q T = 0 := by simp [J, Jmax, pZero]
  have hj : jr pZero cc Q T = 0 := by
    rw [jr, hJ]
    simp [Rd, pZero]
  have ht : tpu pZero cc T = 0 := by simp [tpu, TPU, pZero]
  rw [A, hv, hj, ht, hmin_zero_zero, hmin_zero_zero]

lemma ccStep_pZero (Ci Q T cc : ℝ) : ccStep pZero 1 Ci Q T cc = Ci := by
  rw [ccStep, A_pZero]
  norm_num

lemma converged_pZero :
    converged pZero 1 300 1000 298 40 (300 - 20 / 0.2) = true := by
  have h1 : ¬(|ccStep pZero 1 300 1000 298 (300 - 20 / 0.2) -
      (300 - 20 / 0.2)| < 1e-6) := by
    rw [ccStep_pZero]
    rw [show (300:ℝ) - (300 - 20 / 0.2) = 100 by norm_num]
    rw [abs_of_nonneg (by norm_num : (0:ℝ) ≤ 100)]
    norm_num
  rw [show (40:ℕ) = 39 + 1 from rfl, converged, if_neg h1, ccStep_pZero]
  have h2 : |ccStep pZero 1 300 1000 298 300 - 300| < 1e-6 := by
    rw [ccStep_pZero, sub_self, abs_zero]
    norm_num
  rw [show (39:ℕ) = 38 + 1 from rfl, converged, if_pos h2]

/-- C6: whenever the loop exits through the convergence test, the
returned assimilation and the Cc at loop exit balance the diffusion
supply within gm times the convergence threshold. -/
theorem converged_balance (p : FvCBParams) (g Ci Q T : ℝ) (hg : 0 < g)
    (hconv : converged p g Ci Q T 40 (Ci - 20 / 0.2) = true) :
    |evaluateSample p (some g) (Ci, Q, T) -
      g * (Ci - loopGo p g Ci Q T 40 (Ci - 20 / 0.2))| ≤ g * 1e-6 := by
  rw [evaluateSample_pos_gm p Ci Q T hg]
  exact balance_of_test p Ci Q T _ hg (loopGo_converged_test p g Ci Q T 40 _ hconv)

theorem converged_balance_witness :
    (0:ℝ) < 1 ∧
    converged pZero 1 300 1000 298 40 (300 - 20 / 0.2) = true ∧
    |evaluateSample pZero (some 1) (300, 1000, 298) -
      1 * (300 - loopGo pZero 1 300 1000 298 40 (300 - 20 / 0.2))| ≤ 1 * 1e-6 :=
  ⟨by norm_num, converged_pZero,
    converged_balance pZero 1 300 1000 298 (by norm_num) converged_pZero⟩

/-- C1 (amended): the sample result is A evaluated at the final value of
the loop variable; on a convergence exit that final value is the
pre-update iterate (the break fires before the update), whose successor
under one more fixed-point step lies within 1e-6 of it. -/
theorem converged_exit_value (p : FvCBParams) (g Ci Q T : ℝ) (hg : 0 < g)
    (hconv : converged p g Ci Q T 40 (Ci - 20 / 0.2) = true) :
    evaluateSample p (some g) (Ci, Q, T) =
      A p (loopGo p g Ci Q T 40 (Ci - 20 / 0.2)) Q T ∧
    |ccStep p g Ci Q T (loopGo p g Ci Q T 40 (Ci - 20 / 0.2)) -
      loopGo p g Ci Q T 40 (Ci - 20 / 0.2)| < 1e-6 :=
  ⟨evaluateSample_pos_gm p Ci Q T hg, loopGo_converged_test p g Ci Q T 40 _ hconv⟩

theorem converged_exit_value_witness :
    (0:ℝ) < 1 ∧
    converged pZero 1 300 1000 298 40 (300 - 20 / 0.2) = true ∧
    (evaluateSample pZero (some 1) (300, 1000, 298) =
      A pZero (loopGo pZero 1 300 1000 298 40 (300 - 20 / 0.2)) 1000 298 ∧
    |ccStep pZero 1 300 1000 298 (loopGo pZero 1 300 1000 298 40 (300 - 20 / 0.2)) -
      loopGo pZero 1 300 1000 298 40 (300 - 20 / 0.2)| < 1e-6) :=
  ⟨by norm_num, converged_pZero,
    converged_exit_value pZero 1 300 1000 298 (by norm_num) converged_pZero⟩

/-! ### Non-idempotency of the smooth minimum -/

/-- C10: hmin(x, x) = x(1 - sqrt(1 - 0.999))/0.999 < x for x > 0, and
whenever two (or all three) of the limitation rates equal a common
positive value c while all three are positive, the combined assimilation
A is at most c(1 - sqrt(1 - 0.999))/0.999, a fixed relative undershoot of
about three percent, and in particular strictly below c. -/
theorem hmin_not_idempotent (x : ℝ) (hx : 0 < x) (p : FvCBParams)
    (cc Q T c : ℝ) (hc : 0 < c) (ht : 0 < tpu p cc T) (hv : 0 < vr p cc T)
    (hj : 0 < jr p cc Q T)
    (heq : (vr p cc T = c ∧ jr p cc Q T = c) ∨
      (tpu p cc T = c ∧ vr p cc T = c) ∨
      (tpu p cc T = c ∧ jr p cc Q T = c)) :
    (hmin x x = x * (1 - Real.sqrt (1 - 0.999)) / 0.999 ∧ hmin x x < x) ∧
    (A p cc Q T ≤ c * (1 - Real.sqrt (1 - 0.999)) / 0.999 ∧
      A p cc Q T < c) := by
  have h999 : (1:ℝ) - 0.999 = 0.001 := by norm_num
  rw [h999]
  have hs := em3_lt_sqrt_em3
  have hpart1 : hmin x x = x * (1 - Real.sqrt 0.001) / 0.999 := hmin_self hx
  have hlt1 : hmin x x < x := by
    rw [hpart1, div_lt_iff (by norm_num : (0:ℝ) < 0.999)]
    nlinarith [mul_pos hx (show (0:ℝ) < Real.sqrt 0.001 - 0.001 by linarith)]
  have hAle : A p cc Q T ≤ c * (1 - Real.sqrt 0.001) / 0.999 := by
    simp only [A]
    rcases heq with ⟨hv1, hj1⟩ | ⟨ht1, hv1⟩ | ⟨ht1, hj1⟩
    · rw [hv1, hj1, hmin_self hc]
      exact hmin_le_right _ _
    · rw [ht1, hv1]
      exact hmin_le_of_le hc (hmin_pos hc hj) (hmin_le_left c _)
    · rw [ht1, hj1]
      exact hmin_le_of_le hc (hmin_pos hv hc) (hmin_le_right _ c)
  have hrc : c * (1 - Real.sqrt 0.001) / 0.999 < c := by
    rw [div_lt_iff (by norm_num : (0:ℝ) < 0.999)]
    nlinarith [mul_pos hc (show (0:ℝ) < Real.sqrt 0.001 - 0.001 by linarith)]
  exact ⟨⟨hpart1, hlt1⟩, hAle, lt_of_le_of_lt hAle hrc⟩

/-- Concrete parameter set for which, at Cc = 100, Q = 50, T = 298, all
three limitation rates equal 12.5. -/
def pEqual : FvCBParams :=
  ⟨12.5, 1, 500, 1000, 100, 1, 500, 1000, 25 / 6, 1, 500, 1000,
   0, 1, 1, 1, 0, 1, 0, 1, 0, 1, 1, 0⟩

lemma Gamma_pEqual : Gamma pEqual 298 = 0 := by simp [Gamma, pEqual]

lemma Rd_pEqual : Rd pEqual 298 = 0 := by simp [Rd, pEqual]

lemma Kco_pEqual : Kco pEqual 298 = 0 := by simp [Kco, Kc, pEqual]

lemma vr_pEqual : vr pEqual 100 298 = 12.5 := by
  have hV : Vcmax pEqual 298 = 12.5 := by
    rw [Vcmax, Tresp_at_298]
    simp [pEqual]
  rw [vr, hV, Kco_pEqual, Gamma_pEqual, Rd_pEqual]
  norm_num

lemma J_pEqual : J pEqual 50 298 = 50 := by
  have hJm : Jmax pEqual 298 = 100 := by
    rw [Jmax, Tresp_at_298]
    simp [pEqual]
  have ha : aClamp pEqual.theta = 1 := by
    rw [aClamp]
    norm_num [pEqual]
  have hαQ : pEqual.alpha * (50:ℝ) = 50 := by norm_num [pEqual]
  rw [J, hJm, ha, hαQ]
  have hsq : Real.sqrt ((-((50:ℝ) + 100)) ^ 2 - 4 * 1 * (50 * 100)) = 50 := by
    rw [show (-((50:ℝ) + 100)) ^ 2 - 4 * 1 * (50 * 100) = 50 ^ 2 by norm_num]
    exact Real.sqrt_sq (by norm_num)
  rw [hsq]
  norm_num

lemma jr_pEqual : jr pEqual 100 50 298 = 12.5 := by
  rw [jr, J_pEqual, Gamma_pEqual, Rd_pEqual]
  norm_num

lemma tpu_pEqual : tpu pEqual 100 298 = 12.5 := by
  have hT : TPU pEqual 298 = 25 / 6 := by
    rw [TPU, Tresp_at_298]
    simp [pEqual]
  rw [tpu, hT, Gamma_pEqual]
  norm_num

theorem hmin_not_idempotent_witness :
    ((0:ℝ) < 1 ∧ (0:ℝ) < 12.5 ∧ 0 < tpu pEqual 100 298 ∧
      0 < vr pEqual 100 298 ∧ 0 < jr pEqual 100 50 298) ∧
    ((hmin 1 1 = 1 * (1 - Real.sqrt (1 - 0.999)) / 0.999 ∧ hmin 1 1 < 1) ∧
      (A pEqual 100 50 298 ≤ 12.5 * (1 - Real.sqrt (1 - 0.999)) / 0.999 ∧
        A pEqual 100 50 298 < 12.5)) := by
  have ht : (0:ℝ) < tpu pEqual 100 298 := by rw [tpu_pEqual]; norm_num
  have hv : (0:ℝ) < vr pEqual 100 298 := by rw [vr_pEqual]; norm_num
  have hj : (0:ℝ) < jr pEqual 100 50 298 := by rw [jr_pEqual]; norm_num
  exact ⟨⟨by norm_num, by norm_num, ht, hv, hj⟩,
    hmin_not_idempotent 1 (by norm_num) pEqual 100 50 298 12.5 (by norm_num)
      ht hv hj (Or.inl ⟨vr_pEqual, jr_pEqual⟩)⟩

/-! ### A parameter set with exactly computable loop iterates

With Jmax25 = TPU25 = Rd25 = 0, alpha = 0, theta = 1, Kc25 = 0, O = 0
and GammaS25 = 1000, the electron-transport and TPU rates vanish and, for
0 < Cc < 1000, the net assimilation reduces to the rational function
A(Cc) = (Cc - 1000) / (10^7 Cc) (the Vcmax25 value 998001 / 10^13 makes
the two smooth-minimum passes cancel against the factor 0.998001), so the
fixed-point iterates are exact rationals. -/

def pMobius : FvCBParams :=
  ⟨998001 / 10 ^ 13, 1, 500, 1000, 0, 1, 500, 1000, 0, 1, 500, 1000,
   0, 1, 1, 1, 1000, 1, 0, 1, 0, 0, 1, 0⟩

lemma hmin_nonpos_zero {x : ℝ} (hx : x ≤ 0) : hmin x 0 = x / 0.999 := by
  rw [hmin, show (x + 0) ^ 2 - 4 * 0.999 * x * 0 = x ^ 2 by ring,
    Real.sqrt_sq_eq_abs, abs_of_nonpos hx]
  ring

lemma hmin_zero_nonpos {x : ℝ} (hx : x ≤ 0) : hmin 0 x = x / 0.999 := by
  rw [hmin_comm]
  exact hmin_nonpos_zero hx

lemma A_pMobius (cc Q : ℝ) (h1 : 0 < cc) (h2 : cc < 1000) :
    A pMobius cc Q 298 = (cc - 1000) / (10 ^ 7 * cc) := by
  have hV : Vcmax pMobius 298 = 998001 / 10 ^ 13 := by
    rw [Vcmax, Tresp_at_298]
    simp [pMobius]
  have hΓ : Gamma pMobius 298 = 1000 := by
    rw [Gamma, Tresp_at_298]
    simp [pMobius]
  have hRd : Rd pMobius 298 = 0 := by simp [Rd, pMobius]
  have hKco : Kco pMobius 298 = 0 := by simp [Kco, Kc, pMobius]
  have hJ : J pMobius Q 298 = 0 := by simp [J, Jmax, pMobius]
  have hjr : jr pMobius cc Q 298 = 0 := by
    rw [jr, hJ]
    simp [Rd, pMobius]
  have htpu : tpu pMobius cc 298 = 0 := by simp [tpu, TPU, pMobius]
  have hvr : vr pMobius cc 298 = 998001 / 10 ^ 13 * ((cc - 1000) / cc) := by
    rw [vr, hV, hKco, hΓ, hRd]
    ring
  have hdivneg : (cc - 1000) / cc < 0 :=
    div_neg_of_neg_of_pos (by linarith) h1
  have hvrneg : 998001 / 10 ^ 13 * ((cc - 1000) / cc) ≤ 0 := by
    have := mul_neg_of_pos_of_neg
      (show (0:ℝ) < 998001 / 10 ^ 13 by norm_num) hdivneg
    linarith
  have hcc : cc ≠ 0 := h1.ne'
  simp only [A]
  have hvrneg2 : 998001 / 10 ^ 13 * ((cc - 1000) / cc) / 0.999 ≤ 0 :=
    div_nonpos_iff.mpr (Or.inr ⟨hvrneg, by norm_num⟩)
  rw [htpu, hjr, hvr, hmin_nonpos_zero hvrneg, hmin_zero_nonpos hvrneg2]
  rw [div_div]
  field_simp
  ring

lemma ccStep_pMobius (cc : ℝ) (h1 : 0 < cc) (h2 : cc < 1000) :
    ccStep pMobius 1 300 0 298 cc = 300 - (cc - 1000) / (10 ^ 7 * cc) := by
  rw [ccStep, A_pMobius cc 0 h1 h2]
  norm_num

lemma pM_s1 : ccStep pMobius 1 300 0 298 200 = 750000001 / 2500000 := by
  rw [ccStep_pMobius 200 (by norm_num) (by norm_num)]
  norm_num

lemma pM_s2 : ccStep pMobius 1 300 0 298 (750000001 / 2500000)
    = 2250000004749999999 / 7500000010000000 := by
  rw [ccStep_pMobius (750000001 / 2500000) (by norm_num) (by norm_num)]
  norm_num

lemma pM_c1 : ¬(|ccStep pMobius 1 300 0 298 200 - 200| < 1e-6) := by
  rw [pM_s1, show (750000001:ℝ) / 2500000 - 200 = 250000001 / 2500000 by norm_num,
    abs_of_nonneg (by norm_num : (0:ℝ) ≤ 250000001 / 2500000)]
  norm_num

lemma pM_c2 : |ccStep pMobius 1 300 0 298 (750000001 / 2500000) -
    750000001 / 2500000| < 1e-6 := by
  rw [pM_s2, show (2250000004749999999:ℝ) / 7500000010000000 - 750000001 / 2500000
      = -(1250000005 / 7500000010000000) by norm_num,
    abs_neg, abs_of_nonneg (by norm_num : (0:ℝ) ≤ 1250000005 / 7500000010000000)]
  norm_num

lemma loopGo_pMobius :
    loopGo pMobius 1 300 0 298 40 (300 - 20 / 0.2) = 750000001 / 2500000 := by
  rw [show (300:ℝ) - 20 / 0.2 = 200 by norm_num]
  rw [show (40:ℕ) = 39 + 1 from rfl, loopGo, if_neg pM_c1, pM_s1]
  rw [show (39:ℕ) = 38 + 1 from rfl, loopGo, if_pos pM_c2]

lemma converged_pMobius :
    converged pMobius 1 300 0 298 40 (300 - 20 / 0.2) = true := by
  rw [show (300:ℝ) - 20 / 0.2 = 200 by norm_num]
  rw [show (40:ℕ) = 39 + 1 from rfl, converged, if_neg pM_c1, pM_s1]
  rw [show (39:ℕ) = 38 + 1 from rfl, converged, if_pos pM_c2]

/-- C1 (counterexample): a concrete parameter set and sample for which
the loop exits through the convergence test, yet the returned value is
not A evaluated at the converged iterate (the fixed-point successor of
the loop variable at exit): the code reports A at the stale pre-update
iterate instead. -/
theorem stale_exit_counterexample :
    converged pMobius 1 300 0 298 40 (300 - 20 / 0.2) = true ∧
    evaluateSample pMobius (some 1) (300, 0, 298) ≠
      A pMobius (ccStep pMobius 1 300 0 298
        (loopGo pMobius 1 300 0 298 40 (300 - 20 / 0.2))) 0 298 := by
  refine ⟨converged_pMobius, ?_⟩
  rw [evaluateSample_pos_gm pMobius 300 0 298 (by norm_num), loopGo_pMobius,
    pM_s2,
    A_pMobius (750000001 / 2500000) 0 (by norm_num) (by norm_num),
    A_pMobius (2250000004749999999 / 7500000010000000) 0 (by norm_num)
      (by norm_num)]
  norm_num

/-! ### Key-lookup model of parameter access -/

/-- Keys read inside the per-sample computation (within the rate
lambdas of lines 39 to 57 of the source), in definition order. -/
def lazyKeys : List String :=
  ["Vcmax25", "Vcmax_dHa", "Vcmax_dHd", "Vcmax_Topt",
   "Jmax25", "Jmax_dHa", "Jmax_dHd", "Jmax_Topt",
   "TPU25", "TPU_dHa", "TPU_dHd", "TPU_Topt",
   "Kc25", "Kc_dHa", "Ko25", "Ko_dHa",
   "GammaS25", "GammaS_dHa", "Rd25", "Rd_dHa",
   "O", "alpha"]

/-- All required keys of the parameter table. -/
def requiredKeys : List String := lazyKeys ++ ["theta", "alphaG"]

/-- Per-sample computation in the key-lookup model: every key other than
theta and alphaG is read during the sample's own computation (the
lambdas only dereference the table when called, inside the loop body);
the sample's value is computed exactly when all of these reads succeed,
and any absent key aborts that computation with a lookup failure. -/
def lookupSample (p : String → Option ℝ) (theta alphaG : ℝ)
    (gm : Option ℝ) (s : ℝ × ℝ × ℝ) : Option ℝ :=
  match p ("Vcmax25"), p ("Vcmax_dHa"), p ("Vcmax_dHd"), p ("Vcmax_Topt"),
    p ("Jmax25"), p ("Jmax_dHa"), p ("Jmax_dHd"), p ("Jmax_Topt"),
    p ("TPU25"), p ("TPU_dHa"), p ("TPU_dHd"), p ("TPU_Topt"),
    p ("Kc25"), p ("Kc_dHa"), p ("Ko25"), p ("Ko_dHa"),
    p ("GammaS25"), p ("GammaS_dHa"), p ("Rd25"), p ("Rd_dHa"),
    p ("O"), p ("alpha") with
  | some v1, some v2, some v3, some v4, some v5, some v6, some v7, some v8,
    some v9, some v10, some v11, some v12, some v13, some v14, some v15,
    some v16, some v17, some v18, some v19, some v20, some v21, some v22 =>
      some (evaluateSample
        ⟨v1, v2, v3, v4, v5, v6, v7, v8, v9, v10, v11, v12,
         v13, v14, v15, v16, v17, v18, v19, v20, v21, v22, theta, alphaG⟩ gm s)
  | _, _, _, _, _, _, _, _, _, _, _, _, _, _, _, _, _, _, _, _, _, _ => none

/-- Option-valued traversal of the samples: the first failing sample
aborts the batch, mirroring an uncaught exception in the Python loop. -/
def mapOption (f : ℝ × ℝ × ℝ → Option ℝ) :
    List (ℝ × ℝ × ℝ) → Option (List ℝ)
  | [] => some []
  | s :: rest => (f s).bind fun b =>
      (mapOption f rest).bind fun bs => some (b :: bs)

/-- Batch evaluation in the key-lookup model: theta (line 49) and alphaG
(line 60) are read eagerly before the sample loop, gm is read with a
default of none (line 81), and every other key is read inside each
sample's computation. -/
def evaluateFvCBTable (p : String → Option ℝ) (xs : List (ℝ × ℝ × ℝ)) :
    Option (List ℝ) :=
  (p ("theta")).bind fun theta =>
  (p ("alphaG")).bind fun alphaG =>
  mapOption (lookupSample p theta alphaG (p ("gm"))) xs

lemma obind_fun_none {α β : Type} (o : Option α) :
    (o.bind fun _ : α => (none : Option β)) = none := by
  cases o <;> rfl

lemma lookupSample_none (p : String → Option ℝ) (k : String)
    (hk : k ∈ lazyKeys) (h : p k = none) :
    ∀ (theta alphaG : ℝ) (gm : Option ℝ) (s : ℝ × ℝ × ℝ),
      lookupSample p theta alphaG gm s = none := by
  intro theta alphaG gm s
  unfold lookupSample
  split
  · fin_cases hk <;> simp_all
  · rfl

/-- C7 (amended): a missing required key aborts any call with a
non-empty batch before producing outputs; the keys theta and alphaG are
read eagerly before the per-sample loop, so their absence aborts every
call, including one with an empty batch.  (Absence of any of the other
keys leaves an empty batch unaffected; see the counterexample.) -/
theorem missing_key_aborts (p : String → Option ℝ) (k : String)
    (hk : k ∈ requiredKeys) (h : p k = none) (s : ℝ × ℝ × ℝ)
    (xs : List (ℝ × ℝ × ℝ)) :
    evaluateFvCBTable p (s :: xs) = none ∧
    (k = "theta" ∨ k = "alphaG" → ∀ ys, evaluateFvCBTable p ys = none) := by
  constructor
  · have hk' : k ∈ lazyKeys ∨ k = "theta" ∨ k = "alphaG" := by
      simpa [requiredKeys] using hk
    rcases hk' with hlazy | rfl | rfl
    · simp [evaluateFvCBTable, mapOption,
        lookupSample_none p k hlazy h, obind_fun_none]
    · simp [evaluateFvCBTable, h]
    · simp [evaluateFvCBTable, h, obind_fun_none]
  · rintro (rfl | rfl) ys
    · simp [evaluateFvCBTable, h]
    · simp [evaluateFvCBTable, h, obind_fun_none]

/-- Parameter table providing only theta and alphaG; every other
required key is absent. -/
def pIncomplete : String → Option ℝ := fun k =>
  if k = "theta" then some 1 else if k = "alphaG" then some 0 else none

/-- C7 (counterexample): with every key except theta and alphaG missing,
in particular the required key Vcmax25, a call with an empty batch
completes successfully with an empty output instead of failing with a
lookup error. -/
theorem missing_key_empty_batch_counterexample :
    "Vcmax25" ∈ requiredKeys ∧ pIncomplete ("Vcmax25") = none ∧
    evaluateFvCBTable pIncomplete [] = some [] := by
  refine ⟨by simp [requiredKeys, lazyKeys], rfl, ?_⟩
  rfl

theorem missing_key_aborts_witness :
    ("Vcmax25" ∈ requiredKeys ∧ pIncomplete ("Vcmax25") = none) ∧
    (evaluateFvCBTable pIncomplete [((300:ℝ), (1000:ℝ), (298:ℝ))] = none ∧
      ("Vcmax25" = "theta" ∨ "Vcmax25" = "alphaG" →
        ∀ ys, evaluateFvCBTable pIncomplete ys = none)) := by
  have hmem : "Vcmax25" ∈ requiredKeys := by simp [requiredKeys, lazyKeys]
  exact ⟨⟨hmem, rfl⟩,
    missing_key_aborts pIncomplete ("Vcmax25") hmem rfl
      ((300:ℝ), (1000:ℝ), (298:ℝ)) []⟩

end

end FvCB
